import Mathlib

/-
Verification of the Genie client-side audio playback and streamed-response
coordination subsystem.

The definitions below are a shallow embedding of the TypeScript source:
 - the audio utility functions duplicated in Flashcard, ConceptExplainer and
   StudyInterface (decode / decodeAudioData / playAudio / stopAudio and the
   module-level currentSource singleton),
 - the Flashcard speech controller (handlePlayAudio, audioCache,
   currentlyPlaying, the card-navigation effect),
 - the chat component (handleSendMessage and its streaming loop).

Machine integers are modelled as Nat/Int with explicit bounds; audio samples
are modelled as rationals (every value sample/32768 with |sample| <= 32768 is
exactly representable in the source's floating format, so rational equality
is faithful); fallible operations return Option.
-/

namespace Genie

/-! ### Base64 (model of the atob used by decode, and of the PCM encoding) -/

/-- The standard base64 alphabet, index i holding the digit for sextet i. -/
def b64Chars : List Char :=
  ['A', 'B', 'C', 'D', 'E', 'F', 'G', 'H', 'I', 'J', 'K', 'L', 'M',
   'N', 'O', 'P', 'Q', 'R', 'S', 'T', 'U', 'V', 'W', 'X', 'Y', 'Z',
   'a', 'b', 'c', 'd', 'e', 'f', 'g', 'h', 'i', 'j', 'k', 'l', 'm',
   'n', 'o', 'p', 'q', 'r', 's', 't', 'u', 'v', 'w', 'x', 'y', 'z',
   '0', '1', '2', '3', '4', '5', '6', '7', '8', '9', '+', '/']

/-- Digit character for a sextet value (< 64). -/
def sextetToChar (n : Nat) : Char := b64Chars.getD n 'A'

/-- Sextet value of a base64 digit character; none if not in the alphabet. -/
def charToSextet (c : Char) : Option Nat := b64Chars.findIdx? (fun d => d = c)

/-- Base64 encoder (model of btoa on a byte list), producing padded output. -/
def b64Encode : List Nat → List Char
  | [] => []
  | [b1] =>
    [sextetToChar (b1 / 4), sextetToChar (b1 % 4 * 16), '=', '=']
  | [b1, b2] =>
    [sextetToChar (b1 / 4), sextetToChar (b1 % 4 * 16 + b2 / 16),
     sextetToChar (b2 % 16 * 4), '=']
  | b1 :: b2 :: b3 :: rest =>
    sextetToChar (b1 / 4) :: sextetToChar (b1 % 4 * 16 + b2 / 16) ::
    sextetToChar (b2 % 16 * 4 + b3 / 64) :: sextetToChar (b3 % 64) ::
    b64Encode rest

/-- Drop up to two trailing padding characters (step of forgiving-base64). -/
def dropEq (l : List Char) : List Char :=
  match l.reverse with
  | c1 :: c2 :: rest =>
    if c1 = '=' then
      if c2 = '=' then rest.reverse else (c2 :: rest).reverse
    else l
  | [c1] => if c1 = '=' then [] else l
  | [] => l

/-- Decode groups of base64 digits to bytes; a trailing group of 2 or 3
digits yields 1 or 2 bytes. Fails on characters outside the alphabet or on a
leftover single digit. -/
def decodeGroups : List Char → Option (List Nat)
  | [] => some []
  | [c1, c2] =>
    match charToSextet c1, charToSextet c2 with
    | some s1, some s2 => some [s1 * 4 + s2 / 16]
    | _, _ => none
  | [c1, c2, c3] =>
    match charToSextet c1, charToSextet c2, charToSextet c3 with
    | some s1, some s2, some s3 =>
      some [s1 * 4 + s2 / 16, s2 % 16 * 16 + s3 / 4]
    | _, _, _ => none
  | c1 :: c2 :: c3 :: c4 :: rest =>
    match charToSextet c1, charToSextet c2, charToSextet c3,
          charToSextet c4 with
    | some s1, some s2, some s3, some s4 =>
      (decodeGroups rest).map
        (fun bs => (s1 * 4 + s2 / 16) :: (s2 % 16 * 16 + s3 / 4) ::
                   (s3 % 4 * 64 + s4) :: bs)
    | _, _, _, _ => none
  | [_] => none

/-- Padding-stripping step of forgiving-base64: remove up to two trailing
padding characters when the length is a multiple of 4. -/
def atobPrep (l : List Char) : List Char :=
  if l.length % 4 = 0 then dropEq l else l

/-- Model of atob (forgiving-base64 decode): strip the padding when the
length is a multiple of 4, reject a leftover length of 1 mod 4, then decode
digit groups. Returns none where atob throws. -/
def atobDecode (s : String) : Option (List Nat) :=
  if (atobPrep s.data).length % 4 = 1 then none
  else decodeGroups (atobPrep s.data)

/-- Model of the source function decode: base64-decode the payload to raw
bytes (atob plus charCodeAt loop); none models the thrown exception on a
malformed payload. -/
def decode (base64 : String) : Option (List Nat) := atobDecode base64

/-! ### PCM samples (model of decodeAudioData) -/

/-- Reinterpret an unsigned 16-bit value as a signed 16-bit integer, as the
Int16Array view in decodeAudioData does. -/
def toInt16 (u : Nat) : Int := if u < 32768 then (u : Int) else (u : Int) - 65536

/-- Reinterpret a byte list as little-endian signed 16-bit integers; none on
an odd byte count (the Int16Array constructor throws a RangeError there). -/
def bytesToInt16LE : List Nat → Option (List Int)
  | [] => some []
  | [_] => none
  | lo :: hi :: rest =>
    (bytesToInt16LE rest).map (fun xs => toInt16 (lo + 256 * hi) :: xs)

/-- The sample buffer produced by decodeAudioData: a sample rate and one
sample list per channel, samples normalized to rationals in [-1, 1). -/
structure AudioBufferM where
  sampleRate : Nat
  channels : List (List ℚ)
deriving Repr, DecidableEq

/-- Normalization of one 16-bit sample to the floating range: division by
32768 (exact in the source's floating format for these values). -/
def normSample (s : Int) : ℚ := (s : ℚ) / 32768

/-- Model of the source function decodeAudioData: view the bytes as signed
16-bit little-endian integers, de-interleave into numChannels channels of
frameCount = length / numChannels frames, and normalize each sample by
dividing by 32768. -/
def decodeAudioData (data : List Nat) (sampleRate numChannels : Nat) :
    Option AudioBufferM :=
  (bytesToInt16LE data).map (fun ints =>
    let frameCount := ints.length / numChannels
    { sampleRate := sampleRate
      channels := (List.range numChannels).map (fun ch =>
        (List.range frameCount).map (fun i =>
          normSample (ints.getD (i * numChannels + ch) 0))) })

/-- Little-endian two's-complement byte pair of a signed 16-bit sample. -/
def int16ToLEBytes (s : Int) : List Nat :=
  let u := (s + 65536).toNat % 65536
  [u % 256, u / 256]

/-- Serialize signed 16-bit samples as little-endian bytes. -/
def pcm16ToBytes (samples : List Int) : List Nat :=
  samples.flatMap int16ToLEBytes

/-- Encode signed 16-bit samples as the base64 PCM payload format consumed
by the audio utilities. -/
def encodePcm16 (samples : List Int) : String :=
  String.mk (b64Encode (pcm16ToBytes samples))

/-- The full decode pipeline of playAudio: base64-decode the payload, then
interpret it as mono 16-bit PCM at the fixed 24000 Hz rate. -/
def decodeAudioPayload (payload : String) : Option AudioBufferM :=
  (decode payload).bind (fun bytes => decodeAudioData bytes 24000 1)

/-! ### The module-level playback engine

Each of the three source files (Flashcard, ConceptExplainer, StudyInterface)
declares its own module-level mutable pair audioContext / currentSource
together with playAudio / stopAudio acting on it. Engine models that
module-level state: current is the currentSource variable (a handle id, none
for null), active is the set of sources whose audio output is running
(started and neither stopped nor ended), nextId supplies fresh handle ids,
and decodes counts the decode invocations performed by playAudio. -/
structure Engine where
  current : Option Nat
  active : List Nat
  nextId : Nat
  decodes : Nat
deriving Repr, DecidableEq

/-- The initial module state: audioContext null, currentSource null. -/
def engineInit : Engine := { current := none, active := [], nextId := 0, decodes := 0 }

/-- Model of the source function stopAudio: if currentSource is set, stop
and disconnect it and set currentSource to null; a no-op otherwise. -/
def stopAudio (e : Engine) : Engine :=
  match e.current with
  | some h => { e with active := e.active.erase h, current := none }
  | none => e

/-- The synchronous head of playAudio: if currentSource is set, stop it
(currentSource itself is left assigned; the source merely stops sounding). -/
def playBegin (e : Engine) : Engine :=
  match e.current with
  | some h => { e with active := e.active.erase h }
  | none => e

/-- The tail of playAudio after a successful decode: create a source, start
it, and assign it to currentSource. -/
def playStart (e : Engine) : Engine :=
  { e with current := some e.nextId, active := e.nextId :: e.active,
           nextId := e.nextId + 1 }

/-- The onended notification of a source: the sound is over (also fired
after an explicit stop); currentSource is cleared only when it still refers
to this very source. The engine part carries no panel callback: the
unconditional onEnd call is modelled at the panel layer. -/
def sourceEnded (e : Engine) (h : Nat) : Engine :=
  let e1 : Engine := { e with active := e.active.erase h }
  if e1.current = some h then { e1 with current := none } else e1

/-- Model of the source function playAudio run to the point where playback
starts: stop the previous currentSource, decode the payload (counted), and
on success start a fresh source. The Bool records whether a source was
started; false models the decode exception propagating to the caller. -/
def playAudio (payload : String) (e : Engine) : Bool × Engine :=
  let e1 := playBegin e
  let e2 : Engine := { e1 with decodes := e1.decodes + 1 }
  match decodeAudioPayload payload with
  | none => (false, e2)
  | some _ => (true, playStart e2)

/-- Events on one module-level engine: a playAudio call (run atomically to
its source start), a stopAudio call, and an asynchronous onended delivery. -/
inductive AEv
  | play (payload : String)
  | stop
  | ended (h : Nat)
deriving Repr, DecidableEq

/-- One engine event. -/
def audioStep (e : Engine) : AEv → Engine
  | .play p => (playAudio p e).2
  | .stop => stopAudio e
  | .ended h => sourceEnded e h

/-- Run a sequence of engine events from a state. -/
def audioRun (e : Engine) (evs : List AEv) : Engine := evs.foldl audioStep e

/-- Engine well-formedness: every running source is the registered
currentSource (so at most one runs), and all issued handles are below
nextId. Holds in engineInit and is preserved by every event. -/
def EngineInv (e : Engine) : Prop :=
  (∀ h ∈ e.active, e.current = some h) ∧ e.active.length ≤ 1 ∧
  (∀ h ∈ e.active, h < e.nextId) ∧
  (∀ h, e.current = some h → h < e.nextId)

/-! ### Cross-panel system (duplicated module state)

The Flashcard file and the StudyInterface file (whose Summary panel uses
the StudyInterface copy of the audio utilities) each own a separate
currentSource. Switching tools unmounts the previous panel; Summary and
ConceptExplainer register an unmount cleanup calling stopAudio, while the
Flashcard component registers none. -/
structure Panels where
  flashEngine : Engine
  summaryEngine : Engine
deriving Repr, DecidableEq

/-- Both files start with null module state. -/
def panelsInit : Panels := { flashEngine := engineInit, summaryEngine := engineInit }

/-- UI-level events touching the two audio modules. -/
inductive PanelEv
  | flashPlay (payload : String)
  | flashStop
  | flashUnmount
  | summaryPlay (payload : String)
  | summaryStop
  | summaryUnmount
deriving Repr, DecidableEq

/-- One cross-panel event. flashUnmount is the identity: the Flashcard
component has no unmount effect, so its audio keeps playing; Summary's
unmount cleanup calls its own file's stopAudio. -/
def panelStep (s : Panels) : PanelEv → Panels
  | .flashPlay p => { s with flashEngine := (playAudio p s.flashEngine).2 }
  | .flashStop => { s with flashEngine := stopAudio s.flashEngine }
  | .flashUnmount => s
  | .summaryPlay p => { s with summaryEngine := (playAudio p s.summaryEngine).2 }
  | .summaryStop => { s with summaryEngine := stopAudio s.summaryEngine }
  | .summaryUnmount => { s with summaryEngine := stopAudio s.summaryEngine }

/-- Run a sequence of cross-panel events. -/
def panelRun (s : Panels) (evs : List PanelEv) : Panels := evs.foldl panelStep s

/-- Number of audio sources producing sound anywhere in the process. -/
def totalActive (s : Panels) : Nat :=
  s.flashEngine.active.length + s.summaryEngine.active.length

/-! ### Flashcard speech controller (handlePlayAudio and friends) -/

/-- JavaScript truthiness of the currentlyPlaying value: null and the empty
string are both falsy. -/
def strTruthy : Option String → Bool
  | none => false
  | some s => !(s = "")

/-- Assoc-list lookup for the audioCache object (newest entry first, which
matches the overwrite semantics of the object spread). -/
def lookupCache : List (String × String) → String → Option String
  | [], _ => none
  | (k, v) :: rest, t => if k = t then some v else lookupCache rest t

/-- Truthiness of the expression audioCache[text]: the entry must exist and
its payload must be a non-empty string. -/
def cacheTruthy (cache : List (String × String)) (t : String) : Bool :=
  match lookupCache cache t with
  | some p => !(p = "")
  | none => false

/-- Model of generateSpeech: the oracle is the raw inlineData field of the
API response; the service throws when it is absent or empty (falsy). -/
def generateSpeech (oracle : String → Option String) (t : String) : Option String :=
  match oracle t with
  | some d => if d = "" then none else some d
  | none => none

/-- State of the Flashcard component relevant to speech: the module-level
engine of its file, the audioCache and currentlyPlaying React state, and a
log of the texts sent to generateSpeech (in call order). -/
structure FlashState where
  engine : Engine
  audioCache : List (String × String)
  currentlyPlaying : Option String
  synthLog : List String
deriving Repr, DecidableEq

/-- Initial Flashcard speech state. -/
def flashInit : FlashState :=
  { engine := engineInit, audioCache := [], currentlyPlaying := none, synthLog := [] }

/-- The cache-or-synthesize half of handlePlayAudio (the code after the
toggle block). On a cache hit: mark the text as playing and call playAudio;
a decode failure there is uncaught, leaving the marker set. On a miss:
request synthesis; on success store the payload, mark the text playing and
call playAudio; the catch block resets the marker on synthesis or decode
failure. -/
def speakFresh (oracle : String → Option String) (st : FlashState) (t : String) :
    FlashState :=
  if cacheTruthy st.audioCache t then
    let p := (lookupCache st.audioCache t).getD ""
    let r := playAudio p st.engine
    { st with currentlyPlaying := some t, engine := r.2 }
  else
    let st1 : FlashState := { st with synthLog := st.synthLog ++ [t] }
    match generateSpeech oracle t with
    | none => { st1 with currentlyPlaying := none }
    | some d =>
      let st2 : FlashState := { st1 with audioCache := (t, d) :: st1.audioCache }
      let r := playAudio d st2.engine
      if r.1 then { st2 with currentlyPlaying := some t, engine := r.2 }
      else { st2 with currentlyPlaying := none, engine := r.2 }

/-- Model of the source function handlePlayAudio: if currentlyPlaying is
truthy, stop the audio and clear the marker, and return when the request was
for that very text (toggle-stop); otherwise fall through to the
cache-or-synthesize path. -/
def handlePlayAudio (oracle : String → Option String) (st : FlashState)
    (t : String) : FlashState :=
  if strTruthy st.currentlyPlaying then
    let wasPlayingThisText : Bool := st.currentlyPlaying = some t
    let st1 : FlashState :=
      { st with engine := stopAudio st.engine, currentlyPlaying := none }
    if wasPlayingThisText then st1 else speakFresh oracle st1 t
  else speakFresh oracle st t

/-- Delivery of a source's deferred onended notification to the Flashcard
component: the engine clears currentSource only under the staleness guard,
but the registered onEnd callback (setCurrentlyPlaying null) runs
unconditionally. -/
def flashEnded (st : FlashState) (h : Nat) : FlashState :=
  { st with engine := sourceEnded st.engine h, currentlyPlaying := none }

/-! ### Summary / ConceptExplainer speech controller (handlePlay)

The Summary panel (defined inside the StudyInterface file) and the
ConceptExplainer hold a Bool isPlaying flag and an audioDataRef instead of a
text-keyed cache; handlePlay acts on the engine of their own file. -/
structure SummaryState where
  engine : Engine
  isPlaying : Bool
  audioData : Option String
  synthLog : List String
deriving Repr, DecidableEq

/-- Initial Summary speech state. -/
def summaryInit : SummaryState :=
  { engine := engineInit, isPlaying := false, audioData := none, synthLog := [] }

/-- Model of the source function handlePlay over the panel's subject text:
toggle-stop when isPlaying; otherwise play the ref-cached payload, or
synthesize, cache in the ref and play. isPlaying is set before the playAudio
await; on the ref-hit path a decode failure is uncaught and leaves it set,
while the synthesis path resets it in its catch block. -/
def handlePlay (oracle : String → Option String) (text : String)
    (st : SummaryState) : SummaryState :=
  if st.isPlaying then
    { st with engine := stopAudio st.engine, isPlaying := false }
  else
    match st.audioData with
    | some d =>
      let r := playAudio d st.engine
      { st with isPlaying := true, engine := r.2 }
    | none =>
      let st1 : SummaryState := { st with synthLog := st.synthLog ++ [text] }
      match generateSpeech oracle text with
      | none => { st1 with isPlaying := false }
      | some d =>
        let st2 : SummaryState := { st1 with audioData := some d }
        let r := playAudio d st2.engine
        if r.1 then { st2 with isPlaying := true, engine := r.2 }
        else { st2 with isPlaying := false, engine := r.2 }

/-! ### Whole-application view for cross-panel playback

The flashcard controller and the summary controller live in different files
and therefore act on different module-level engines. Switching the active
tool unmounts the previous panel: the Flashcard component registers no
unmount cleanup, so the switch leaves its audio running. -/
structure AppState where
  flash : FlashState
  summary : SummaryState
deriving Repr, DecidableEq

/-- Initial application state. -/
def appInit : AppState := { flash := flashInit, summary := summaryInit }

/-- User-visible events that reach the audio subsystem. -/
inductive UEv
  | flashSpeak (t : String)
  | toolSwitch
  | summarySpeak
deriving Repr, DecidableEq

/-- One application event: a read-aloud click on the flashcard panel, a tool
switch (no audio effect: Flashcard has no unmount cleanup), or a read-aloud
click on the summary panel over the fixed summary text. -/
def appStep (oracle : String → Option String) (summaryText : String)
    (s : AppState) : UEv → AppState
  | .flashSpeak t => { s with flash := handlePlayAudio oracle s.flash t }
  | .toolSwitch => s
  | .summarySpeak => { s with summary := handlePlay oracle summaryText s.summary }

/-- Run a sequence of application events. -/
def appRun (oracle : String → Option String) (summaryText : String)
    (s : AppState) (evs : List UEv) : AppState :=
  evs.foldl (appStep oracle summaryText) s

/-- Number of audio sources producing sound anywhere in the application. -/
def appActive (s : AppState) : Nat :=
  s.flash.engine.active.length + s.summary.engine.active.length

/-! ### Flashcard navigation (currentIndex / isFlipped and their effect) -/

/-- Full Flashcard component state: the card position plus the speech
state. numCards is flashcards.length. -/
structure CardState where
  currentIndex : Nat
  isFlipped : Bool
  numCards : Nat
  flash : FlashState
deriving Repr, DecidableEq

/-- The dependency tuple of the stop-audio effect. -/
def cardDeps (c : CardState) : Nat × Bool := (c.currentIndex, c.isFlipped)

/-- Body of the useEffect with dependencies [currentIndex, isFlipped]:
stopAudio and setCurrentlyPlaying(null). -/
def flipEffect (c : CardState) : CardState :=
  { c with flash := { c.flash with engine := stopAudio c.flash.engine,
                                   currentlyPlaying := none } }

/-- One React commit: apply a state update, then run the effect exactly when
its dependencies changed. -/
def renderStep (f : CardState → CardState) (c : CardState) : CardState :=
  let c2 := f c
  if cardDeps c2 = cardDeps c then c2 else flipEffect c2

/-- State update setting isFlipped. -/
def setFlipped (b : Bool) (c : CardState) : CardState := { c with isFlipped := b }

/-- Model of flipCard: toggle isFlipped (one commit, effect included). -/
def flipCard (c : CardState) : CardState :=
  renderStep (fun c0 => setFlipped (!c0.isFlipped) c0) c

/-- Model of goToNextCard: unflip now, then (after the 150 ms timeout, a
second commit) advance currentIndex modulo the deck size. -/
def goToNextCard (c : CardState) : CardState :=
  renderStep (fun c0 => { c0 with currentIndex := (c0.currentIndex + 1) % c0.numCards })
    (renderStep (setFlipped false) c)

/-- Model of goToPrevCard: unflip now, then step currentIndex back modulo
the deck size in a second commit. -/
def goToPrevCard (c : CardState) : CardState :=
  renderStep
    (fun c0 => { c0 with currentIndex := (c0.currentIndex + c0.numCards - 1) % c0.numCards })
    (renderStep (setFlipped false) c)

/-! ### Chat component (handleSendMessage) -/

/-- Message roles of the transcript. -/
inductive Role
  | user
  | model
deriving Repr, DecidableEq

/-- One transcript entry. -/
structure ChatMessageM where
  role : Role
  content : String
deriving Repr, DecidableEq

/-- The fixed apology entry used by the catch block. -/
def apologyMessage : ChatMessageM :=
  { role := Role.model, content := "Sorry, I encountered an error. Please try again." }

/-- Chat component state: whether createChatSession has produced a session,
the transcript, the input box, the isLoading flag, and a log of the texts
actually handed to sendMessageStream. -/
structure ChatState where
  hasSession : Bool
  messages : List ChatMessageM
  userInput : String
  isLoading : Bool
  sendLog : List String
deriving Repr, DecidableEq

/-- Model of the JavaScript string trim: drop whitespace characters from
both ends. -/
def jsTrim (s : String) : String :=
  String.mk (((s.data.dropWhile Char.isWhitespace).reverse.dropWhile
    Char.isWhitespace).reverse)

/-- Model of the per-chunk setMessages updater: append the fragment to the
content of the last entry when its role is model; the code reads
newMessages[newMessages.length - 1] and would fault on an empty list, which
never occurs after the placeholder append. -/
def applyChunk (msgs : List ChatMessageM) (c : String) : List ChatMessageM :=
  match msgs.getLast? with
  | some m =>
    if m.role = Role.model then
      msgs.dropLast ++ [{ m with content := m.content ++ c }]
    else msgs
  | none => msgs

/-- Model of the catch-block setMessages updater: replace the last entry
with the apology when it is a model entry with empty content, otherwise push
the apology as a new entry. -/
def applyStreamError (msgs : List ChatMessageM) : List ChatMessageM :=
  match msgs.getLast? with
  | some m =>
    if m.role = Role.model ∧ m.content = "" then msgs.dropLast ++ [apologyMessage]
    else msgs ++ [apologyMessage]
  | none => msgs ++ [apologyMessage]

/-- Outcome of one sendMessageStream call: the finite fragment sequence it
delivered, and whether it then completed or failed. -/
inductive StreamOutcome
  | ok (frags : List String)
  | err (frags : List String)
deriving Repr, DecidableEq

/-- Model of the source function handleSendMessage against a given stream
outcome: bail out when the trimmed input is falsy, no session exists, or a
send is in flight; otherwise append the user entry and the empty model
placeholder, clear the input, log the request, fold the delivered fragments
into the transcript, apply the error policy on failure, and reset isLoading
in the finally block. -/
def handleSendMessage (st : ChatState) (outcome : StreamOutcome) : ChatState :=
  if jsTrim st.userInput = "" ∨ st.hasSession = false ∨ st.isLoading then st
  else
    let t := jsTrim st.userInput
    let base := st.messages ++ [{ role := Role.user, content := t },
                                { role := Role.model, content := "" }]
    let st1 : ChatState :=
      { st with messages := base, userInput := "", isLoading := true,
                sendLog := st.sendLog ++ [t] }
    match outcome with
    | .ok frags =>
      { st1 with messages := frags.foldl applyChunk st1.messages, isLoading := false }
    | .err frags =>
      { st1 with messages := applyStreamError (frags.foldl applyChunk st1.messages),
                 isLoading := false }

/-- In-order concatenation of a fragment sequence. -/
def joinFrags : List String → String
  | [] => ""
  | f :: fs => f ++ joinFrags fs

/-! ## Theorems -/

/-! ### Chat streaming -/

theorem applyChunk_concat (msgs : List ChatMessageM) (m : ChatMessageM)
    (hm : m.role = Role.model) (c : String) :
    applyChunk (msgs ++ [m]) c =
      msgs ++ [{ role := Role.model, content := m.content ++ c }] := by
  simp [applyChunk, hm]

theorem foldl_applyChunk_concat (fs : List String) :
    ∀ (msgs : List ChatMessageM) (m : ChatMessageM), m.role = Role.model →
    fs.foldl applyChunk (msgs ++ [m]) =
      msgs ++ [{ role := Role.model, content := m.content ++ joinFrags fs }] := by
  induction fs with
  | nil =>
    intro msgs m hm
    cases m with
    | mk r c => simp at hm; simp [joinFrags, hm, String.append_empty]
  | cons f fs ih =>
    intro msgs m hm
    have h1 := applyChunk_concat msgs m hm f
    have h2 := ih msgs { role := Role.model, content := m.content ++ f } rfl
    simp only [List.foldl_cons, h1, h2, joinFrags, String.append_assoc]

/-- A ready chat state used to instantiate the chat theorems. -/
def chatReady : ChatState :=
  { hasSession := true, messages := [], userInput := "hi", isLoading := false,
    sendLog := [] }

/-- C9: a chat send whose user text is empty after trimming, or issued while
a send is already in flight, is a no-op: the state (in particular the
transcript and the log of requests issued to the chat service) is unchanged. -/
theorem chat_send_preconditions (st : ChatState) (outcome : StreamOutcome)
    (h : jsTrim st.userInput = "" ∨ st.isLoading = true) :
    handleSendMessage st outcome = st ∧
    (handleSendMessage st outcome).messages = st.messages ∧
    (handleSendMessage st outcome).sendLog = st.sendLog := by
  have hcond : jsTrim st.userInput = "" ∨ st.hasSession = false ∨ st.isLoading := by
    rcases h with h | h
    case inl => exact Or.inl h
    case inr => exact Or.inr (Or.inr (by simp [h]))
  have : handleSendMessage st outcome = st := by
    unfold handleSendMessage
    rw [if_pos hcond]
  exact ⟨this, by rw [this], by rw [this]⟩

theorem chat_send_preconditions_witness :
    (jsTrim " " = "" ∨ false = true) ∧
    handleSendMessage { chatReady with userInput := " " } (StreamOutcome.ok ["x"]) =
      { chatReady with userInput := " " } := by
  have h := chat_send_preconditions { chatReady with userInput := " " }
    (StreamOutcome.ok ["x"]) (Or.inl (by decide))
  exact ⟨Or.inl (by decide), h.1⟩

/-- C4: during a chat send, each delivered fragment is appended to the last
(assistant) transcript entry in arrival order: the final content of that
entry is the in-order concatenation of all fragments, and after any number k
of fragments the intermediate transcript holds exactly the concatenation of
the first k fragments (so no intermediate state shows fragments out of
order). -/
theorem chat_stream_ordering (st : ChatState) (frags : List String)
    (h1 : jsTrim st.userInput ≠ "") (h2 : st.hasSession = true)
    (h3 : st.isLoading = false) :
    (handleSendMessage st (StreamOutcome.ok frags)).messages =
      st.messages ++ [{ role := Role.user, content := jsTrim st.userInput },
                      { role := Role.model, content := joinFrags frags }] ∧
    ∀ k : Nat,
      (frags.take k).foldl applyChunk
          (st.messages ++ [{ role := Role.user, content := jsTrim st.userInput },
                           { role := Role.model, content := "" }]) =
        st.messages ++ [{ role := Role.user, content := jsTrim st.userInput },
                        { role := Role.model, content := joinFrags (frags.take k) }] := by
  have hbase : ∀ fs : List String,
      fs.foldl applyChunk
          (st.messages ++ [{ role := Role.user, content := jsTrim st.userInput },
                           { role := Role.model, content := "" }]) =
        st.messages ++ [{ role := Role.user, content := jsTrim st.userInput },
                        { role := Role.model, content := joinFrags fs }] := by
    intro fs
    have h := foldl_applyChunk_concat fs
      (st.messages ++ [{ role := Role.user, content := jsTrim st.userInput }])
      { role := Role.model, content := "" } rfl
    simpa [String.empty_append] using h
  constructor
  case left =>
    unfold handleSendMessage
    rw [if_neg]
    case hnc => simp [h1, h2, h3]
    simpa using hbase frags
  case right => exact fun k => hbase (frags.take k)

theorem chat_stream_ordering_witness :
    jsTrim "hi" ≠ "" ∧
    (handleSendMessage chatReady (StreamOutcome.ok ["Hel", "lo ", "world"])).messages =
      [{ role := Role.user, content := "hi" },
       { role := Role.model, content := "Hello world" }] := by
  have h := chat_stream_ordering chatReady ["Hel", "lo ", "world"]
    (by decide) rfl rfl
  refine ⟨by decide, ?_⟩
  have h1 := h.1
  simpa [chatReady, joinFrags] using h1

/-- C3, counterexample: from a ready chat state with input hi, a send that
fails after the fragment Hel has arrived leaves the partial content in place
but ALSO appends the fixed apology as a new transcript entry (the code's
catch block pushes it when the placeholder is non-empty, and no separate
error flag exists in the component state), contradicting the claim that in
this case no transcript entry is replaced or appended. -/
theorem chat_error_append_counterexample :
    (handleSendMessage chatReady (StreamOutcome.err ["Hel"])).messages =
      [{ role := Role.user, content := "hi" },
       { role := Role.model, content := "Hel" }, apologyMessage] ∧
    (handleSendMessage chatReady (StreamOutcome.err ["Hel"])).messages.length =
      (handleSendMessage chatReady (StreamOutcome.ok ["Hel"])).messages.length + 1 := by
  decide

/-- C3 as amended: when a send fails, the assistant placeholder entry is
replaced with the fixed apology message if it is still empty (no fragments
arrived); if it already has partial content, the partial content is left in
place and the apology message is appended as an additional transcript entry
(there is no separate error flag). -/
theorem chat_error_policy (st : ChatState) (frags : List String)
    (h1 : jsTrim st.userInput ≠ "") (h2 : st.hasSession = true)
    (h3 : st.isLoading = false) :
    (joinFrags frags = "" →
      (handleSendMessage st (StreamOutcome.err frags)).messages =
        st.messages ++ [{ role := Role.user, content := jsTrim st.userInput },
                        apologyMessage]) ∧
    (joinFrags frags ≠ "" →
      (handleSendMessage st (StreamOutcome.err frags)).messages =
        st.messages ++ [{ role := Role.user, content := jsTrim st.userInput },
                        { role := Role.model, content := joinFrags frags },
                        apologyMessage]) := by
  have hbase :
      frags.foldl applyChunk
          (st.messages ++ [{ role := Role.user, content := jsTrim st.userInput },
                           { role := Role.model, content := "" }]) =
        st.messages ++ [{ role := Role.user, content := jsTrim st.userInput },
                        { role := Role.model, content := joinFrags frags }] := by
    have h := foldl_applyChunk_concat frags
      (st.messages ++ [{ role := Role.user, content := jsTrim st.userInput }])
      { role := Role.model, content := "" } rfl
    simpa [String.empty_append] using h
  have hmsgs : (handleSendMessage st (StreamOutcome.err frags)).messages =
      applyStreamError
        (st.messages ++ [{ role := Role.user, content := jsTrim st.userInput },
                         { role := Role.model, content := joinFrags frags }]) := by
    unfold handleSendMessage
    rw [if_neg]
    case hnc => simp [h1, h2, h3]
    simp only []
    rw [hbase]
  constructor
  case left =>
    intro hempty
    rw [hmsgs]
    simp [applyStreamError, hempty]
  case right =>
    intro hne
    rw [hmsgs]
    simp [applyStreamError, hne]

theorem chat_error_policy_witness :
    jsTrim "hi" ≠ "" ∧ joinFrags ["Hel"] ≠ "" ∧ joinFrags ([] : List String) = "" ∧
    (handleSendMessage chatReady (StreamOutcome.err ["Hel"])).messages =
      [{ role := Role.user, content := "hi" },
       { role := Role.model, content := "Hel" }, apologyMessage] ∧
    (handleSendMessage chatReady (StreamOutcome.err [])).messages =
      [{ role := Role.user, content := "hi" }, apologyMessage] := by
  have ha := (chat_error_policy chatReady ["Hel"] (by decide) rfl rfl).2 (by decide)
  have hb := (chat_error_policy chatReady ([] : List String) (by decide) rfl rfl).1 rfl
  refine ⟨by decide, by decide, rfl, ?_, ?_⟩
  case refine_1 => simpa [chatReady, joinFrags] using ha
  case refine_2 => simpa [chatReady] using hb

/-! ### Playback engine invariants -/

theorem engineInv_init : EngineInv engineInit := by
  refine ⟨?_, ?_, ?_, ?_⟩ <;> simp [engineInit, EngineInv]

theorem engineInv_active_cases (e : Engine) (hinv : EngineInv e) :
    e.active = [] ∨ ∃ a, e.active = [a] ∧ e.current = some a ∧ a < e.nextId := by
  obtain ⟨h1, h2, h3, _⟩ := hinv
  match he : e.active with
  | [] => exact Or.inl rfl
  | [a] =>
    refine Or.inr ⟨a, rfl, ?_, ?_⟩
    case refine_1 => exact h1 a (by rw [he]; exact List.mem_singleton_self a)
    case refine_2 => exact h3 a (by rw [he]; exact List.mem_singleton_self a)
  | a :: b :: rest =>
    rw [he] at h2
    simp at h2

theorem playBegin_active (e : Engine) (hinv : EngineInv e) :
    (playBegin e).active = [] := by
  rcases engineInv_active_cases e hinv with h | ⟨a, ha, hc, _⟩
  case inl =>
    unfold playBegin
    cases hcur : e.current <;> simp [h, hcur, List.erase_nil]
  case inr =>
    unfold playBegin
    rw [hc]
    simp [ha]

theorem engineInv_stopAudio (e : Engine) (hinv : EngineInv e) :
    EngineInv (stopAudio e) ∧ (stopAudio e).active = [] ∧
    (stopAudio e).current = none ∧ (stopAudio e).nextId = e.nextId := by
  rcases engineInv_active_cases e hinv with h | ⟨a, ha, hc, _⟩
  case inl =>
    cases hcur : e.current
    case none =>
      have : stopAudio e = e := by unfold stopAudio; rw [hcur]
      rw [this]
      refine ⟨hinv, h, hcur, rfl⟩
    case some hdl =>
      unfold stopAudio
      rw [hcur]
      refine ⟨⟨?_, ?_, ?_, ?_⟩, ?_, rfl, rfl⟩ <;> simp [h, List.erase_nil]
  case inr =>
    unfold stopAudio
    rw [hc]
    refine ⟨⟨?_, ?_, ?_, ?_⟩, ?_, rfl, rfl⟩ <;> simp [ha]

theorem playBegin_fields (e : Engine) :
    (playBegin e).current = e.current ∧ (playBegin e).nextId = e.nextId := by
  unfold playBegin
  cases hcur : e.current <;> simp [hcur]

theorem engineInv_playAudio (e : Engine) (p : String) (hinv : EngineInv e) :
    EngineInv (playAudio p e).2 ∧ (playAudio p e).2.nextId = e.nextId + (if (playAudio p e).1 then 1 else 0) ∧
    ∀ h ∈ e.active, h ∉ (playAudio p e).2.active := by
  have hbeg := playBegin_active e hinv
  have hflds := playBegin_fields e
  have hmem : ∀ h ∈ e.active, h < e.nextId := hinv.2.2.1
  unfold playAudio
  cases hd : decodeAudioPayload p
  case none =>
    refine ⟨⟨?_, ?_, ?_, ?_⟩, ?_, ?_⟩
    case refine_1 =>
      intro h hh
      rw [hbeg] at hh
      simp at hh
    case refine_2 => simp [hbeg]
    case refine_3 =>
      intro h hh
      rw [hbeg] at hh
      simp at hh
    case refine_4 =>
      intro h hh
      simp only [] at hh
      rw [hflds.1] at hh
      rw [hflds.2]
      exact hinv.2.2.2 h hh
    case refine_5 => simp [hflds.2]
    case refine_6 =>
      intro h hh
      rw [hbeg]
      simp
  case some buf =>
    refine ⟨⟨?_, ?_, ?_, ?_⟩, ?_, ?_⟩
    case refine_1 =>
      intro h hh
      simp only [playStart, hbeg, List.mem_singleton] at hh
      simp [playStart, hh]
    case refine_2 => simp [playStart, hbeg]
    case refine_3 =>
      intro h hh
      simp only [playStart, hbeg, List.mem_singleton] at hh
      simp [playStart, hh, hflds.2]
    case refine_4 =>
      intro h hh
      simp only [playStart] at hh
      rw [Option.some_inj] at hh
      simp [playStart, hflds.2, ← hh]
    case refine_5 => simp [playStart, hflds.2]
    case refine_6 =>
      intro h hh
      have hlt := hmem h hh
      simp only [playStart, hbeg, List.mem_singleton]
      rw [hflds.2]
      omega

theorem engineInv_sourceEnded (e : Engine) (h : Nat) (hinv : EngineInv e) :
    EngineInv (sourceEnded e h) ∧ (sourceEnded e h).nextId = e.nextId := by
  have h4 := hinv.2.2.2
  rcases engineInv_active_cases e hinv with ha | ⟨a, ha, hc, hlt⟩
  case inl =>
    unfold sourceEnded
    simp only [ha, List.erase_nil]
    split
    case isTrue =>
      refine ⟨⟨?_, ?_, ?_, ?_⟩, rfl⟩ <;> simp
    case isFalse =>
      refine ⟨⟨?_, ?_, ?_, ?_⟩, rfl⟩
      case refine_1 => simp
      case refine_2 => simp
      case refine_3 => simp
      case refine_4 =>
        intro h0 hc0
        exact h4 h0 hc0
  case inr =>
    unfold sourceEnded
    by_cases hha : h = a
    case pos =>
      subst hha
      have herase : e.active.erase h = [] := by
        rw [ha]
        simp
      have hcond : ({ e with active := e.active.erase h } : Engine).current = some h := hc
      rw [if_pos hcond]
      refine ⟨⟨?_, ?_, ?_, ?_⟩, rfl⟩ <;> simp [herase]
    case neg =>
      have hne : (a == h) = false := by
        rw [beq_eq_false_iff_ne]
        intro hcontra
        exact hha hcontra.symm
      have herase : e.active.erase h = [a] := by
        rw [ha, List.erase_cons, hne]
        simp
      have hcond : ¬ ({ e with active := e.active.erase h } : Engine).current = some h := by
        show ¬ e.current = some h
        rw [hc]
        simp only [Option.some_inj]
        intro hcontra
        exact hha hcontra.symm
      rw [if_neg hcond]
      refine ⟨⟨?_, ?_, ?_, ?_⟩, rfl⟩ <;> simp [herase, hc, hlt]

theorem engineInv_audioStep (e : Engine) (ev : AEv) (hinv : EngineInv e) :
    EngineInv (audioStep e ev) := by
  cases ev
  case play p => exact (engineInv_playAudio e p hinv).1
  case stop => exact (engineInv_stopAudio e hinv).1
  case ended h => exact (engineInv_sourceEnded e h hinv).1

theorem engineInv_audioRun (evs : List AEv) :
    ∀ e : Engine, EngineInv e → EngineInv (audioRun e evs) := by
  induction evs with
  | nil => intro e he; exact he
  | cons ev evs ih =>
    intro e he
    exact ih (audioStep e ev) (engineInv_audioStep e ev he)

/-! ### C1: at-most-one playback -/

/-- C1, counterexample: the claimed invariant is process-wide, but the audio
utilities are duplicated per file with separate module-level currentSource
variables, and the Flashcard component registers no unmount cleanup. After
the reachable event sequence (read a flashcard face aloud, switch tools —
which unmounts the Flashcard panel without stopping its audio — then read
the summary aloud) each file's engine has one running source, so two
playback handles are concurrently active and the summary speak call did not
stop the flashcard playback. -/
theorem at_most_one_playback_counterexample :
    appActive (appRun (fun _ => some "AAA=") "S" appInit
        [UEv.flashSpeak "A", UEv.toolSwitch, UEv.summarySpeak]) = 2 ∧
    (appRun (fun _ => some "AAA=") "S" appInit
        [UEv.flashSpeak "A", UEv.toolSwitch, UEv.summarySpeak]).flash.engine.active = [0] ∧
    (appRun (fun _ => some "AAA=") "S" appInit
        [UEv.flashSpeak "A", UEv.toolSwitch, UEv.summarySpeak]).summary.engine.active = [0] := by
  decide

/-- C1 as amended: within a single file's audio module (so for speak calls
all going through one copy of playAudio/stopAudio — one panel), at most one
playback handle is active at any point of any event sequence, and starting
any new playback removes every previously active handle. Across panels the
per-file duplicate module state breaks the process-wide form of the claim. -/
theorem at_most_one_playback_per_module (evs : List AEv) :
    (audioRun engineInit evs).active.length ≤ 1 ∧
    ∀ h ∈ (audioRun engineInit evs).active, ∀ p,
      h ∉ (audioStep (audioRun engineInit evs) (AEv.play p)).active := by
  have hinv := engineInv_audioRun evs engineInit engineInv_init
  refine ⟨hinv.2.1, ?_⟩
  intro h hh p
  exact (engineInv_playAudio (audioRun engineInit evs) p hinv).2.2 h hh

theorem at_most_one_playback_per_module_witness :
    (audioRun engineInit [AEv.play "AAA=", AEv.stop, AEv.play "AAA="]).active.length ≤ 1 ∧
    1 ∈ (audioRun engineInit [AEv.play "AAA=", AEv.stop, AEv.play "AAA="]).active ∧
    1 ∉ (audioStep (audioRun engineInit [AEv.play "AAA=", AEv.stop, AEv.play "AAA="])
          (AEv.play "AAA=")).active := by
  have h := at_most_one_playback_per_module [AEv.play "AAA=", AEv.stop, AEv.play "AAA="]
  exact ⟨h.1, by decide, h.2 1 (by decide) "AAA="⟩

/-! ### C2: stale completion -/

/-- A synthesis oracle answering every text with the payload AAA=
(two zero PCM bytes, one sample). -/
def oracle0 : String → Option String := fun _ => some "AAA="

/-- Flashcard state after: speak A (playback handle 0), speak A again
(toggle-stop), speak B (playback handle 1). -/
def staleTrace : FlashState :=
  handlePlayAudio oracle0
    (handlePlayAudio oracle0 (handlePlayAudio oracle0 flashInit "A") "A") "B"

/-- C2, counterexample: start playback A, stop it, start playback B; when
A's deferred completion notification (onended of handle 0) fires, the
staleness guard preserves the global currentSource (still handle 1), but the
onEnd callback runs outside that guard, so the panel's currently-playing
marker — state associated with B, which is still audibly playing — is
cleared to null. -/
theorem stale_completion_counterexample :
    staleTrace.currentlyPlaying = some "B" ∧
    staleTrace.engine.current = some 1 ∧
    staleTrace.engine.active = [1] ∧
    (flashEnded staleTrace 0).engine.current = some 1 ∧
    (flashEnded staleTrace 0).engine.active = [1] ∧
    (flashEnded staleTrace 0).currentlyPlaying = none := by
  decide

/-- C2 as amended: when the deferred completion of a since-stopped playback
A fires while B is registered, the handle-identity guard keeps the global
currentSource untouched, but the completion callback is invoked
unconditionally, so the panel's currently-playing UI marker is cleared even
though it refers to B. -/
theorem stale_completion_guard (st : FlashState) (h : Nat)
    (hne : st.engine.current ≠ some h) :
    (flashEnded st h).engine.current = st.engine.current ∧
    (flashEnded st h).currentlyPlaying = none := by
  refine ⟨?_, rfl⟩
  show (sourceEnded st.engine h).current = st.engine.current
  unfold sourceEnded
  rw [if_neg]
  case hnc => exact hne

theorem stale_completion_guard_witness :
    staleTrace.engine.current ≠ some 0 ∧
    (flashEnded staleTrace 0).engine.current = staleTrace.engine.current ∧
    (flashEnded staleTrace 0).currentlyPlaying = none := by
  have h := stale_completion_guard staleTrace 0 (by decide)
  exact ⟨by decide, h.1, h.2⟩

/-! ### C5: toggle-stop -/

/-- C5, counterexample: the toggle branch tests JavaScript truthiness of
currentlyPlaying, and the empty string is falsy. Reachably (speak the empty
text once: synthesis succeeds, the empty text becomes the currently playing
text), a second speak of that same playing text does not stop playback: it
issues a fresh decode call and keeps playing (a new handle is started),
instead of transitioning to Idle with no new decode. -/
theorem toggle_stop_counterexample :
    (handlePlayAudio oracle0 flashInit "").currentlyPlaying = some "" ∧
    (handlePlayAudio oracle0 flashInit "").engine.active = [0] ∧
    (handlePlayAudio oracle0 (handlePlayAudio oracle0 flashInit "") "").engine.decodes =
      (handlePlayAudio oracle0 flashInit "").engine.decodes + 1 ∧
    (handlePlayAudio oracle0 (handlePlayAudio oracle0 flashInit "") "").currentlyPlaying =
      some "" ∧
    (handlePlayAudio oracle0 (handlePlayAudio oracle0 flashInit "") "").engine.active = [1] := by
  decide

/-- C5 as amended: for any NON-EMPTY text t currently playing on the
flashcard panel, calling speak(t) again stops the playback, transitions to
Idle (marker cleared, no registered or active source), and issues no new
synthesis request and no new decode call. -/
theorem toggle_stop (oracle : String → Option String) (st : FlashState)
    (t : String) (h : Nat) (ht : t ≠ "") (hp : st.currentlyPlaying = some t)
    (hc : st.engine.current = some h) (ha : st.engine.active = [h]) :
    handlePlayAudio oracle st t =
      { st with currentlyPlaying := none,
                engine := { st.engine with current := none, active := [] } } ∧
    (handlePlayAudio oracle st t).synthLog = st.synthLog ∧
    (handlePlayAudio oracle st t).engine.decodes = st.engine.decodes := by
  have hmain : handlePlayAudio oracle st t =
      { st with currentlyPlaying := none,
                engine := { st.engine with current := none, active := [] } } := by
    unfold handlePlayAudio
    rw [hp]
    have htr : strTruthy (some t) = true := by simp [strTruthy, ht]
    rw [htr, if_pos rfl]
    have hwas : (decide (some t = some t)) = true := by simp
    rw [hwas, if_pos rfl]
    have hstop : stopAudio st.engine =
        { st.engine with current := none, active := [] } := by
      unfold stopAudio
      rw [hc, ha]
      simp
    rw [hstop]
  exact ⟨hmain, by rw [hmain], by rw [hmain]⟩

theorem toggle_stop_witness :
    ("A" : String) ≠ "" ∧
    (handlePlayAudio oracle0 flashInit "A").currentlyPlaying = some "A" ∧
    handlePlayAudio oracle0 (handlePlayAudio oracle0 flashInit "A") "A" =
      { handlePlayAudio oracle0 flashInit "A" with
          currentlyPlaying := none,
          engine := { (handlePlayAudio oracle0 flashInit "A").engine with
                        current := none, active := [] } } := by
  have h := toggle_stop oracle0 (handlePlayAudio oracle0 flashInit "A") "A" 0
    (by decide) (by decide) (by decide) (by decide)
  exact ⟨by decide, by decide, h.1⟩

/-! ### C6: cache idempotence -/

/-- C6: starting from a state where the non-empty text t is not cached and
nothing is playing, speaking t (cache miss: one synthesis request),
toggle-stopping it, and speaking t again performs exactly one synthesis
request for t overall: the second fresh call finds t in the cache (exact
string key) and plays from it without synthesizing again. -/
theorem cache_idempotence (oracle : String → Option String) (st : FlashState)
    (t p : String) (ht : t ≠ "") (hplay : st.currentlyPlaying = none)
    (hmiss : cacheTruthy st.audioCache t = false)
    (hsynth : oracle t = some p) (hp : p ≠ "")
    (hdec : decodeAudioPayload p ≠ none) :
    (handlePlayAudio oracle
        (handlePlayAudio oracle (handlePlayAudio oracle st t) t) t).synthLog =
      st.synthLog ++ [t] ∧
    (handlePlayAudio oracle st t).synthLog = st.synthLog ++ [t] ∧
    cacheTruthy (handlePlayAudio oracle (handlePlayAudio oracle st t) t).audioCache t =
      true ∧
    (handlePlayAudio oracle
        (handlePlayAudio oracle (handlePlayAudio oracle st t) t) t).currentlyPlaying =
      some t ∧
    (handlePlayAudio oracle
        (handlePlayAudio oracle (handlePlayAudio oracle st t) t) t).engine.active ≠
      [] := by
  have hgen : generateSpeech oracle t = some p := by
    simp [generateSpeech, hsynth, hp]
  obtain ⟨buf, hbuf⟩ : ∃ b, decodeAudioPayload p = some b := by
    cases hd : decodeAudioPayload p
    case none => exact absurd hd hdec
    case some b => exact ⟨b, rfl⟩
  have hplayA : ∀ e : Engine, playAudio p e =
      (true, playStart { playBegin e with decodes := (playBegin e).decodes + 1 }) := by
    intro e
    unfold playAudio
    rw [hbuf]
  have e1 : handlePlayAudio oracle st t =
      { st with
        engine := playStart
          { playBegin st.engine with decodes := (playBegin st.engine).decodes + 1 },
        audioCache := (t, p) :: st.audioCache,
        currentlyPlaying := some t,
        synthLog := st.synthLog ++ [t] } := by
    unfold handlePlayAudio
    rw [hplay]
    have hfalse : strTruthy none = false := rfl
    rw [hfalse]
    simp only [Bool.false_eq_true, if_false]
    unfold speakFresh
    rw [hmiss]
    simp only [Bool.false_eq_true, if_false]
    rw [hgen]
    simp only []
    rw [hplayA]
    simp
  set s1 := handlePlayAudio oracle st t with hs1
  have e2 : handlePlayAudio oracle s1 t =
      { s1 with engine := stopAudio s1.engine, currentlyPlaying := none } := by
    unfold handlePlayAudio
    have hcur : s1.currentlyPlaying = some t := by rw [e1]
    rw [hcur]
    have htr : strTruthy (some t) = true := by simp [strTruthy, ht]
    rw [htr, if_pos rfl]
    have hwas : (decide (some t = some t)) = true := by simp
    rw [hwas, if_pos rfl]
  set s2 := handlePlayAudio oracle s1 t with hs2
  have hcache2 : s2.audioCache = (t, p) :: st.audioCache := by
    rw [e2]
    show s1.audioCache = (t, p) :: st.audioCache
    rw [e1]
  have hlog2 : s2.synthLog = st.synthLog ++ [t] := by
    rw [e2]
    show s1.synthLog = st.synthLog ++ [t]
    rw [e1]
  have hhit : cacheTruthy s2.audioCache t = true := by
    rw [hcache2]
    simp [cacheTruthy, lookupCache, hp]
  have hlook : lookupCache s2.audioCache t = some p := by
    rw [hcache2]
    simp [lookupCache]
  have e3 : handlePlayAudio oracle s2 t =
      { s2 with
        engine := playStart
          { playBegin s2.engine with decodes := (playBegin s2.engine).decodes + 1 },
        currentlyPlaying := some t } := by
    unfold handlePlayAudio
    have hcur2 : s2.currentlyPlaying = none := by rw [e2]
    rw [hcur2]
    have hfalse : strTruthy none = false := rfl
    rw [hfalse]
    simp only [Bool.false_eq_true, if_false]
    unfold speakFresh
    rw [hhit, if_pos rfl, hlook]
    simp only [Option.getD_some]
    rw [hplayA]
  refine ⟨?_, ?_, hhit, ?_, ?_⟩
  case refine_1 =>
    rw [e3]
    show s2.synthLog = st.synthLog ++ [t]
    exact hlog2
  case refine_2 => rw [e1]
  case refine_3 => rw [e3]
  case refine_4 =>
    rw [e3]
    show (playStart { playBegin s2.engine with
        decodes := (playBegin s2.engine).decodes + 1 }).active ≠ []
    simp [playStart]

theorem cache_idempotence_witness :
    (handlePlayAudio oracle0
        (handlePlayAudio oracle0 (handlePlayAudio oracle0 flashInit "x") "x") "x").synthLog =
      ["x"] ∧
    cacheTruthy (handlePlayAudio oracle0
        (handlePlayAudio oracle0 flashInit "x") "x").audioCache "x" = true ∧
    (handlePlayAudio oracle0
        (handlePlayAudio oracle0 (handlePlayAudio oracle0 flashInit "x") "x") "x").currentlyPlaying =
      some "x" := by
  have h := cache_idempotence oracle0 flashInit "x" "AAA=" (by decide) rfl
    (by decide) rfl (by decide) (by decide)
  refine ⟨?_, h.2.2.1, h.2.2.2.1⟩
  have h1 := h.1
  simpa [flashInit] using h1

/-! ### C10: card navigation stops audio -/

/-- The part of EngineInv needed to show that a stop silences everything:
either nothing is running, or the one running source is the registered
currentSource. -/
def ActiveCurrent (e : Engine) : Prop :=
  e.active = [] ∨ ∃ a, e.active = [a] ∧ e.current = some a

theorem stopAudio_clears (e : Engine) (hinv : ActiveCurrent e) :
    (stopAudio e).active = [] ∧ (stopAudio e).current = none := by
  rcases hinv with ha | ⟨a, ha, hc⟩
  case inl =>
    unfold stopAudio
    cases hcur : e.current
    case none => exact ⟨ha, hcur⟩
    case some h => simp [ha, List.erase_nil]
  case inr =>
    unfold stopAudio
    rw [hc]
    simp [ha]

theorem renderStep_stops (f : CardState → CardState) (c : CardState)
    (hfl : (f c).flash = c.flash) (hinv : ActiveCurrent c.flash.engine)
    (hch : cardDeps (renderStep f c) ≠ cardDeps c) :
    (renderStep f c).flash.currentlyPlaying = none ∧
    (renderStep f c).flash.engine.active = [] ∧
    (renderStep f c).flash.engine.current = none := by
  unfold renderStep
  unfold renderStep at hch
  by_cases hdep : cardDeps (f c) = cardDeps c
  case pos =>
    exfalso
    apply hch
    simp only [hdep, if_pos rfl]
    exact hdep
  case neg =>
    rw [if_neg hdep]
    have hstop := stopAudio_clears c.flash.engine hinv
    refine ⟨rfl, ?_, ?_⟩
    case refine_1 =>
      show (stopAudio (f c).flash.engine).active = []
      rw [hfl]
      exact hstop.1
    case refine_2 =>
      show (stopAudio (f c).flash.engine).current = none
      rw [hfl]
      exact hstop.2

theorem renderStep_activeCurrent (f : CardState → CardState) (c : CardState)
    (hfl : (f c).flash = c.flash) (hinv : ActiveCurrent c.flash.engine) :
    ActiveCurrent (renderStep f c).flash.engine := by
  unfold renderStep
  by_cases hdep : cardDeps (f c) = cardDeps c
  case pos =>
    rw [if_pos hdep, hfl]
    exact hinv
  case neg =>
    rw [if_neg hdep]
    left
    show (stopAudio (f c).flash.engine).active = []
    rw [hfl]
    exact (stopAudio_clears c.flash.engine hinv).1

/-- C10: on the flashcard panel, every change of the current card index or
of the flip state runs the stop effect: whenever a commit of flipCard, of
the unflip step of goToNextCard/goToPrevCard, or of their deferred index
step changes (currentIndex, isFlipped), the resulting state has no playing
audio source and a null currently-playing marker. -/
theorem card_navigation_stops_audio (c : CardState)
    (hinv : ActiveCurrent c.flash.engine) :
    (cardDeps (flipCard c) ≠ cardDeps c →
      (flipCard c).flash.currentlyPlaying = none ∧
      (flipCard c).flash.engine.active = [] ∧
      (flipCard c).flash.engine.current = none) ∧
    (cardDeps (renderStep (setFlipped false) c) ≠ cardDeps c →
      (renderStep (setFlipped false) c).flash.currentlyPlaying = none ∧
      (renderStep (setFlipped false) c).flash.engine.active = [] ∧
      (renderStep (setFlipped false) c).flash.engine.current = none) ∧
    (cardDeps (goToNextCard c) ≠ cardDeps (renderStep (setFlipped false) c) →
      (goToNextCard c).flash.currentlyPlaying = none ∧
      (goToNextCard c).flash.engine.active = [] ∧
      (goToNextCard c).flash.engine.current = none) ∧
    (cardDeps (goToPrevCard c) ≠ cardDeps (renderStep (setFlipped false) c) →
      (goToPrevCard c).flash.currentlyPlaying = none ∧
      (goToPrevCard c).flash.engine.active = [] ∧
      (goToPrevCard c).flash.engine.current = none) := by
  have hmidinv : ActiveCurrent (renderStep (setFlipped false) c).flash.engine :=
    renderStep_activeCurrent (setFlipped false) c rfl hinv
  refine ⟨?_, ?_, ?_, ?_⟩
  case refine_1 =>
    intro hch
    exact renderStep_stops (fun c0 => setFlipped (!c0.isFlipped) c0) c rfl hinv hch
  case refine_2 =>
    intro hch
    exact renderStep_stops (setFlipped false) c rfl hinv hch
  case refine_3 =>
    intro hch
    exact renderStep_stops
      (fun c0 => { c0 with currentIndex := (c0.currentIndex + 1) % c0.numCards })
      (renderStep (setFlipped false) c) rfl hmidinv hch
  case refine_4 =>
    intro hch
    exact renderStep_stops
      (fun c0 => { c0 with currentIndex := (c0.currentIndex + c0.numCards - 1) % c0.numCards })
      (renderStep (setFlipped false) c) rfl hmidinv hch

/-- A concrete flashcard panel state playing text A on handle 0, front of
card 0 of a three-card deck. -/
def playingCard : CardState :=
  { currentIndex := 0, isFlipped := false, numCards := 3,
    flash := handlePlayAudio oracle0 flashInit "A" }

theorem card_navigation_stops_audio_witness :
    ActiveCurrent playingCard.flash.engine ∧
    playingCard.flash.currentlyPlaying = some "A" ∧
    cardDeps (flipCard playingCard) ≠ cardDeps playingCard ∧
    (flipCard playingCard).flash.currentlyPlaying = none ∧
    (flipCard playingCard).flash.engine.active = [] ∧
    cardDeps (goToNextCard playingCard) ≠
      cardDeps (renderStep (setFlipped false) playingCard) ∧
    (goToNextCard playingCard).flash.currentlyPlaying = none ∧
    (goToNextCard playingCard).flash.engine.active = [] := by
  have hinv : ActiveCurrent playingCard.flash.engine := by
    right
    exact ⟨0, by decide, by decide⟩
  have h := card_navigation_stops_audio playingCard hinv
  have h1 := h.1 (by decide)
  have h3 := h.2.2.1 (by decide)
  exact ⟨hinv, by decide, by decide, h1.1, h1.2.1, by decide, h3.1, h3.2.1⟩

/-! ### C7 and C8: base64 PCM decode -/

theorem charToSextet_sextetToChar : ∀ s : Nat, s < 64 →
    charToSextet (sextetToChar s) = some s := by
  decide

theorem sextetToChar_ne_eq : ∀ s : Nat, s < 64 → ¬ sextetToChar s = '=' := by
  decide

theorem b64Encode_length_mod4 : ∀ bs : List Nat, (b64Encode bs).length % 4 = 0
  | [] => by simp [b64Encode]
  | [b1] => by simp [b64Encode]
  | [b1, b2] => by simp [b64Encode]
  | b1 :: b2 :: b3 :: rest => by
    have ih := b64Encode_length_mod4 rest
    simp only [b64Encode, List.length_cons]
    omega

theorem two_le_b64Encode_length : ∀ bs : List Nat, bs ≠ [] →
    2 ≤ (b64Encode bs).length
  | [], h => absurd rfl h
  | [b1], _ => by simp [b64Encode]
  | [b1, b2], _ => by simp [b64Encode]
  | b1 :: b2 :: b3 :: rest, _ => by
    simp only [b64Encode, List.length_cons]
    omega

theorem dropEq_cons_cons (c1 c2 : Char) (r : List Char) (l : List Char)
    (h : l.reverse = c1 :: c2 :: r) :
    dropEq l =
      if c1 = '=' then (if c2 = '=' then r.reverse else (c2 :: r).reverse)
      else l := by
  unfold dropEq
  rw [h]

theorem dropEq_append (xs ys : List Char) (hlen : 2 ≤ ys.length) :
    dropEq (xs ++ ys) = xs ++ dropEq ys := by
  match hys : ys.reverse with
  | [] =>
    have : ys.length = 0 := by
      have := congrArg List.length hys
      simpa using this
    omega
  | [c1] =>
    have : ys.length = 1 := by
      have := congrArg List.length hys
      simpa using this
    omega
  | c1 :: c2 :: r =>
    have h1 : (xs ++ ys).reverse = c1 :: c2 :: (r ++ xs.reverse) := by
      rw [List.reverse_append, hys]
      rfl
    rw [dropEq_cons_cons c1 c2 (r ++ xs.reverse) (xs ++ ys) h1,
        dropEq_cons_cons c1 c2 r ys hys]
    split_ifs
    case _ => simp
    case _ => simp
    case _ => rfl

theorem decodeGroups_dropEq_encode : ∀ bs : List Nat, (∀ b ∈ bs, b < 256) →
    decodeGroups (dropEq (b64Encode bs)) = some bs ∧
    (dropEq (b64Encode bs)).length % 4 ≠ 1
  | [], _ => by decide
  | [b1], h => by
    have hb1 : b1 < 256 := h b1 (by simp)
    have hrev : (b64Encode [b1]).reverse =
        '=' :: '=' :: [sextetToChar (b1 % 4 * 16), sextetToChar (b1 / 4)] := by
      simp [b64Encode]
    rw [dropEq_cons_cons _ _ _ _ hrev]
    rw [if_pos rfl, if_pos rfl]
    have hr : ([sextetToChar (b1 % 4 * 16), sextetToChar (b1 / 4)]).reverse =
        [sextetToChar (b1 / 4), sextetToChar (b1 % 4 * 16)] := by simp
    rw [hr]
    refine ⟨?_, by simp⟩
    simp only [decodeGroups]
    rw [charToSextet_sextetToChar (b1 / 4) (by omega),
        charToSextet_sextetToChar (b1 % 4 * 16) (by omega)]
    simp only [Option.some_inj]
    have : b1 / 4 * 4 + b1 % 4 * 16 / 16 = b1 := by omega
    rw [this]
  | [b1, b2], h => by
    have hb1 : b1 < 256 := h b1 (by simp)
    have hb2 : b2 < 256 := h b2 (by simp)
    have hrev : (b64Encode [b1, b2]).reverse =
        '=' :: sextetToChar (b2 % 16 * 4) ::
          [sextetToChar (b1 % 4 * 16 + b2 / 16), sextetToChar (b1 / 4)] := by
      simp [b64Encode]
    rw [dropEq_cons_cons _ _ _ _ hrev]
    rw [if_pos rfl, if_neg (sextetToChar_ne_eq (b2 % 16 * 4) (by omega))]
    have hr : (sextetToChar (b2 % 16 * 4) ::
        [sextetToChar (b1 % 4 * 16 + b2 / 16), sextetToChar (b1 / 4)]).reverse =
        [sextetToChar (b1 / 4), sextetToChar (b1 % 4 * 16 + b2 / 16),
         sextetToChar (b2 % 16 * 4)] := by simp
    rw [hr]
    refine ⟨?_, by simp⟩
    simp only [decodeGroups]
    rw [charToSextet_sextetToChar (b1 / 4) (by omega),
        charToSextet_sextetToChar (b1 % 4 * 16 + b2 / 16) (by omega),
        charToSextet_sextetToChar (b2 % 16 * 4) (by omega)]
    simp only [Option.some_inj]
    have e1 : b1 / 4 * 4 + (b1 % 4 * 16 + b2 / 16) / 16 = b1 := by omega
    have e2 : (b1 % 4 * 16 + b2 / 16) % 16 * 16 + b2 % 16 * 4 / 4 = b2 := by omega
    rw [e1, e2]
  | [b1, b2, b3], h => by
    have hb1 : b1 < 256 := h b1 (by simp)
    have hb2 : b2 < 256 := h b2 (by simp)
    have hb3 : b3 < 256 := h b3 (by simp)
    have hrev : (b64Encode [b1, b2, b3]).reverse =
        sextetToChar (b3 % 64) :: sextetToChar (b2 % 16 * 4 + b3 / 64) ::
          [sextetToChar (b1 % 4 * 16 + b2 / 16), sextetToChar (b1 / 4)] := by
      simp [b64Encode]
    rw [dropEq_cons_cons _ _ _ _ hrev]
    rw [if_neg (sextetToChar_ne_eq (b3 % 64) (by omega))]
    refine ⟨?_, ?_⟩
    case refine_2 => simp [b64Encode]
    show decodeGroups (b64Encode [b1, b2, b3]) = some [b1, b2, b3]
    simp only [b64Encode, decodeGroups]
    rw [charToSextet_sextetToChar (b1 / 4) (by omega),
        charToSextet_sextetToChar (b1 % 4 * 16 + b2 / 16) (by omega),
        charToSextet_sextetToChar (b2 % 16 * 4 + b3 / 64) (by omega),
        charToSextet_sextetToChar (b3 % 64) (by omega)]
    simp only [decodeGroups, Option.map_some, Option.some_inj]
    have e1 : b1 / 4 * 4 + (b1 % 4 * 16 + b2 / 16) / 16 = b1 := by omega
    have e2 : (b1 % 4 * 16 + b2 / 16) % 16 * 16 + (b2 % 16 * 4 + b3 / 64) / 4 = b2 := by
      omega
    have e3 : (b2 % 16 * 4 + b3 / 64) % 4 * 64 + b3 % 64 = b3 := by omega
    rw [e1, e2, e3]
    rfl
  | b1 :: b2 :: b3 :: r0 :: rest, h => by
    have hb1 : b1 < 256 := h b1 (by simp)
    have hb2 : b2 < 256 := h b2 (by simp)
    have hb3 : b3 < 256 := h b3 (by simp)
    have hrest : ∀ b ∈ r0 :: rest, b < 256 := by
      intro b hb
      exact h b (by simp [hb])
    have ih := decodeGroups_dropEq_encode (r0 :: rest) hrest
    have hne : (r0 :: rest : List Nat) ≠ [] := by simp
    have h2le := two_le_b64Encode_length (r0 :: rest) hne
    have hsplit : b64Encode (b1 :: b2 :: b3 :: r0 :: rest) =
        [sextetToChar (b1 / 4), sextetToChar (b1 % 4 * 16 + b2 / 16),
         sextetToChar (b2 % 16 * 4 + b3 / 64), sextetToChar (b3 % 64)] ++
          b64Encode (r0 :: rest) := rfl
    rw [hsplit, dropEq_append _ _ h2le]
    constructor
    case left =>
      simp only [List.cons_append, List.nil_append]
      simp only [decodeGroups]
      rw [charToSextet_sextetToChar (b1 / 4) (by omega),
          charToSextet_sextetToChar (b1 % 4 * 16 + b2 / 16) (by omega),
          charToSextet_sextetToChar (b2 % 16 * 4 + b3 / 64) (by omega),
          charToSextet_sextetToChar (b3 % 64) (by omega)]
      simp only [ih.1, Option.map_some, Option.some_inj]
      have e1 : b1 / 4 * 4 + (b1 % 4 * 16 + b2 / 16) / 16 = b1 := by omega
      have e2 : (b1 % 4 * 16 + b2 / 16) % 16 * 16 + (b2 % 16 * 4 + b3 / 64) / 4 = b2 := by
        omega
      have e3 : (b2 % 16 * 4 + b3 / 64) % 4 * 64 + b3 % 64 = b3 := by omega
      rw [e1, e2, e3]
      rfl
    case right =>
      have := ih.2
      simp only [List.length_append, List.length_cons, List.length_nil]
      omega

theorem atobDecode_b64Encode (bs : List Nat) (h : ∀ b ∈ bs, b < 256) :
    atobDecode (String.mk (b64Encode bs)) = some bs := by
  have hmain := decodeGroups_dropEq_encode bs h
  have hlen : (String.mk (b64Encode bs)).data.length % 4 = 0 :=
    b64Encode_length_mod4 bs
  have hprep : atobPrep (String.mk (b64Encode bs)).data = dropEq (b64Encode bs) := by
    unfold atobPrep
    rw [if_pos hlen]
  unfold atobDecode
  rw [hprep, if_neg hmain.2]
  exact hmain.1

theorem pcm16ToBytes_lt (samples : List Int) :
    ∀ b ∈ pcm16ToBytes samples, b < 256 := by
  induction samples with
  | nil => simp [pcm16ToBytes]
  | cons s rest ih =>
    intro b hb
    simp only [pcm16ToBytes, List.flatMap_cons, int16ToLEBytes, List.cons_append,
      List.nil_append, List.mem_cons] at hb
    rcases hb with hb | hb | hb
    case inl => omega
    case inr.inl =>
      have hlt : (s + 65536).toNat % 65536 < 65536 := Nat.mod_lt _ (by omega)
      omega
    case inr.inr => exact ih b (by simpa [pcm16ToBytes] using hb)

theorem bytesToInt16LE_pcm16 (samples : List Int)
    (h : ∀ s ∈ samples, -32768 ≤ s ∧ s < 32768) :
    bytesToInt16LE (pcm16ToBytes samples) = some samples := by
  induction samples with
  | nil => rfl
  | cons s rest ih =>
    have hs := h s (by simp)
    have hrest : ∀ x ∈ rest, -32768 ≤ x ∧ x < 32768 := by
      intro x hx
      exact h x (by simp [hx])
    have hstep : pcm16ToBytes (s :: rest) =
        ((s + 65536).toNat % 65536 % 256) ::
        ((s + 65536).toNat % 65536 / 256) :: pcm16ToBytes rest := by
      simp [pcm16ToBytes, int16ToLEBytes]
    rw [hstep]
    show (bytesToInt16LE (pcm16ToBytes rest)).map _ = some (s :: rest)
    rw [ih hrest]
    simp only [Option.map_some', Option.some_inj]
    have hval : (s + 65536).toNat % 65536 % 256 +
        256 * ((s + 65536).toNat % 65536 / 256) = (s + 65536).toNat % 65536 := by
      omega
    rw [hval]
    have : toInt16 ((s + 65536).toNat % 65536) = s := by
      unfold toInt16
      split_ifs <;> omega
    rw [this]

theorem range_map_getD (f : Int → ℚ) (l : List Int) :
    (List.range l.length).map (fun i => f (l.getD i 0)) = l.map f := by
  induction l with
  | nil => simp
  | cons a tl ih =>
    simp only [List.length_cons, List.range_succ_eq_map, List.map_cons,
      List.map_map, List.getD_cons_zero]
    refine congrArg (f a :: ·) ?_
    rw [← ih]
    refine List.map_congr_left ?_
    intro i _
    simp [List.getD_cons_succ]

theorem decodeAudioData_mono (bytes : List Nat) (ints : List Int)
    (h : bytesToInt16LE bytes = some ints) :
    decodeAudioData bytes 24000 1 =
      some { sampleRate := 24000, channels := [ints.map normSample] } := by
  unfold decodeAudioData
  rw [h]
  refine congrArg some ?_
  refine congrArg (fun c => AudioBufferM.mk 24000 c) ?_
  have h1 : ints.length / 1 = ints.length := Nat.div_one _
  have hr1 : List.range 1 = [0] := rfl
  simp only [hr1, List.map_cons, List.map_nil, h1]
  refine congrArg (fun x => [x]) ?_
  have h2 : ∀ i : Nat, i * 1 + 0 = i := by intro i; omega
  calc (List.range ints.length).map
        (fun i => normSample (ints.getD (i * 1 + 0) 0))
      = (List.range ints.length).map
        (fun i => normSample (ints.getD i 0)) := by
        refine List.map_congr_left ?_
        intro i _
        rw [h2 i]
    _ = ints.map normSample := range_map_getD normSample ints

/-- C7: encoding any sequence of N signed 16-bit samples as little-endian
bytes in base64 and decoding through the playAudio pipeline yields a mono
buffer at the fixed 24000 Hz rate with exactly N rational samples, where
sample i equals the original integer divided by 32768. -/
theorem decode_round_trip (samples : List Int)
    (h : ∀ s ∈ samples, -32768 ≤ s ∧ s < 32768) :
    decodeAudioPayload (encodePcm16 samples) =
      some { sampleRate := 24000, channels := [samples.map normSample] } ∧
    ∃ ch : List ℚ,
      decodeAudioPayload (encodePcm16 samples) =
        some { sampleRate := 24000, channels := [ch] } ∧
      ch.length = samples.length ∧
      ∀ i : Nat, i < samples.length →
        ch.getD i 0 = normSample (samples.getD i 0) := by
  have hbytes := pcm16ToBytes_lt samples
  have hatob := atobDecode_b64Encode (pcm16ToBytes samples) hbytes
  have hints := bytesToInt16LE_pcm16 samples h
  have hmain : decodeAudioPayload (encodePcm16 samples) =
      some { sampleRate := 24000, channels := [samples.map normSample] } := by
    unfold decodeAudioPayload encodePcm16 decode
    rw [hatob]
    show decodeAudioData (pcm16ToBytes samples) 24000 1 = _
    exact decodeAudioData_mono (pcm16ToBytes samples) samples hints
  refine ⟨hmain, samples.map normSample, hmain, by simp, ?_⟩
  intro i hi
  have hi2 : i < (samples.map normSample).length := by simpa using hi
  rw [List.getD_eq_getElem _ _ hi2, List.getElem_map, List.getD_eq_getElem _ _ hi]

theorem decode_round_trip_witness :
    (∀ s ∈ ([1, -1, 32767, -32768] : List Int), -32768 ≤ s ∧ s < 32768) ∧
    decodeAudioPayload (encodePcm16 [1, -1, 32767, -32768]) =
      some { sampleRate := 24000,
             channels := [[normSample 1, normSample (-1),
                           normSample 32767, normSample (-32768)]] } := by
  have h := (decode_round_trip [1, -1, 32767, -32768] (by decide)).1
  refine ⟨by decide, ?_⟩
  simpa using h

/-- C8: a payload that is malformed base64 (atob throws) or whose decoded
byte length is odd fails to decode to a buffer, and playAudio starts no
source for it (no new handle id is allocated and the engine gains no active
source beyond the implicit stop of the previous one). -/
theorem decode_failure (payload : String)
    (h : decode payload = none ∨
         ∃ bytes, decode payload = some bytes ∧ bytes.length % 2 = 1) :
    decodeAudioPayload payload = none ∧
    ∀ e : Engine, (playAudio payload e).1 = false ∧
      (playAudio payload e).2.active = (playBegin e).active ∧
      (playAudio payload e).2.current = e.current ∧
      (playAudio payload e).2.nextId = e.nextId := by
  have hodd : ∀ bytes : List Nat, bytes.length % 2 = 1 →
      bytesToInt16LE bytes = none := by
    intro bytes
    induction bytes using bytesToInt16LE.induct with
    | case1 => intro hb; simp at hb
    | case2 b => intro _; rfl
    | case3 lo hi rest ih =>
      intro hb
      have : rest.length % 2 = 1 := by
        simp only [List.length_cons] at hb
        omega
      show (bytesToInt16LE rest).map _ = none
      rw [ih this]
      rfl
  have hnone : decodeAudioPayload payload = none := by
    unfold decodeAudioPayload
    rcases h with h | ⟨bytes, hb, hl⟩
    case inl => rw [h]; rfl
    case inr =>
      rw [hb]
      show decodeAudioData bytes 24000 1 = none
      unfold decodeAudioData
      rw [hodd bytes hl]
      rfl
  refine ⟨hnone, ?_⟩
  intro e
  have hflds := playBegin_fields e
  unfold playAudio
  rw [hnone]
  exact ⟨rfl, rfl, hflds.1, hflds.2⟩

theorem decode_failure_witness :
    (∃ bytes, decode "QQ==" = some bytes ∧ bytes.length % 2 = 1) ∧
    decodeAudioPayload "QQ==" = none ∧
    (playAudio "QQ==" engineInit).1 = false ∧
    (playAudio "QQ==" engineInit).2.nextId = 0 ∧
    decode "!" = none ∧ decodeAudioPayload "!" = none ∧
    (playAudio "!" engineInit).1 = false := by
  have h1 := decode_failure "QQ==" (Or.inr ⟨[65], by decide, by decide⟩)
  have h2 := decode_failure "!" (Or.inl (by decide))
  exact ⟨⟨[65], by decide, by decide⟩, h1.1, (h1.2 engineInit).1,
    (h1.2 engineInit).2.2.2, by decide, h2.1, (h2.2 engineInit).1⟩

end Genie
